import Mathlib

/-!
# Figurdle — verification of the puzzle-integrity and session-state protocol

This development embeds the client code of the Figurdle repository
(`apps/web/src/lib/api.ts`, `apps/web/src/app/page.tsx` and the game page
with session handling) and, for the server side that is not part of the
source tree (the FastAPI backend: signer, fuzzy matcher, guess endpoint,
session tracker), models the behaviour from the specification.

Strings that travel over the wire (dates, signatures, URLs) are modelled as
byte sequences (`List Nat`); game text (guesses, answers, hints) as `String`.
-/

namespace Figurdle

/-- Byte strings: the model of wire-level strings (dates, signatures, URLs). -/
abbrev Bytes := List Nat

/-! ## Decimal rendering of numbers (used by the signer model and by the
client URL template, where JS interpolates a number into a string). -/

/-- Fuel-indexed decimal digit emitter, most significant digit first.
Emits ASCII digit bytes (48..57). -/
def natDigitsGo : Nat → Nat → Bytes
  | 0, _ => []
  | f + 1, n => if n < 10 then [48 + n] else natDigitsGo f (n / 10) ++ [48 + n % 10]

/-- ASCII decimal rendering of a natural number (what `toString n` /
JS template interpolation produces for a non-negative integer). -/
def natDigits (n : Nat) : Bytes := natDigitsGo (n + 1) n

/-- Parse a byte string of ASCII decimal digits back to a number. -/
def parseNat (bs : Bytes) : Nat := bs.foldl (fun a b => a * 10 + (b - 48)) 0

theorem parseNat_append (xs : Bytes) (d : Nat) :
    parseNat (xs ++ [d]) = parseNat xs * 10 + (d - 48) := by
  simp [parseNat, List.foldl_append]

theorem natDigitsGo_spec (fuel : Nat) : ∀ n < fuel,
    parseNat (natDigitsGo fuel n) = n ∧
    ∀ b ∈ natDigitsGo fuel n, 48 ≤ b ∧ b ≤ 57 := by
  induction fuel with
  | zero => intro n hn; omega
  | succ f ih =>
    intro n hn
    by_cases h10 : n < 10
    · simp [natDigitsGo, h10, parseNat]
      omega
    · have hdiv : n / 10 < n := Nat.div_lt_self (by omega) (by omega)
      have hrec := ih (n / 10) (by omega)
      constructor
      · simp only [natDigitsGo, if_neg h10]
        rw [parseNat_append, hrec.1]
        have hmod : n % 10 < 10 := Nat.mod_lt _ (by omega)
        omega
      · simp only [natDigitsGo, if_neg h10]
        intro b hb
        rcases List.mem_append.mp hb with h | h
        · exact hrec.2 b h
        · simp at h
          have : n % 10 < 10 := Nat.mod_lt _ (by omega)
          omega

theorem parseNat_natDigits (n : Nat) : parseNat (natDigits n) = n :=
  (natDigitsGo_spec (n + 1) n (by omega)).1

theorem natDigits_digits (n : Nat) : ∀ b ∈ natDigits n, 48 ≤ b ∧ b ≤ 57 :=
  (natDigitsGo_spec (n + 1) n (by omega)).2

theorem natDigits_injective {m n : Nat} (h : natDigits m = natDigits n) : m = n := by
  have := parseNat_natDigits m
  rw [h, parseNat_natDigits] at this
  omega

/-! ## Signer -/

/-- Modelled from the spec: the backend signer (`sign(puzzle_date, hints_count)`,
§4.1) is absent from `src/`.  The spec requires a deterministic keyed tag over a
canonical concatenation of the two fields, injective in `(date, n)` for a fixed
secret (an idealisation of the HMAC-class construction, whose collisions the
spec treats as negligible).  We model the tag as
`key ++ SEP ++ date ++ SEP ++ decimal(n)` with `SEP = 124` (the byte of a
separator that decimal digits never contain), which makes the required
injectivity provable. -/
def sign (key d : Bytes) (n : Nat) : Bytes := key ++ 124 :: (d ++ 124 :: natDigits n)

/-- Modelled from the spec: `verify(puzzle_date, hints_count, signature)`
recomputes the tag and compares; false on any mismatch, including a malformed
signature encoding (any byte string that is not the recomputed tag). -/
def verify (key sig d : Bytes) (n : Nat) : Bool := sig == sign key d n

/-- Splitting at the last separator is unique when the suffixes are
separator-free. -/
theorem append_sep_inj : ∀ (l1 l2 r1 r2 : Bytes),
    l1 ++ 124 :: r1 = l2 ++ 124 :: r2 →
    (∀ b ∈ r1, b ≠ 124) → (∀ b ∈ r2, b ≠ 124) →
    l1 = l2 ∧ r1 = r2 := by
  intro l1
  induction l1 with
  | nil =>
    intro l2 r1 r2 heq h1 h2
    cases l2 with
    | nil => simpa using heq
    | cons c l2 =>
      simp only [List.nil_append, List.cons_append, List.cons.injEq] at heq
      exfalso
      have : (124 : Nat) ∈ r1 := by
        rw [heq.2]; exact List.mem_append.mpr (Or.inr (by simp))
      exact h1 124 this rfl
  | cons a l1 ih =>
    intro l2 r1 r2 heq h1 h2
    cases l2 with
    | nil =>
      simp only [List.cons_append, List.nil_append, List.cons.injEq] at heq
      exfalso
      have : (124 : Nat) ∈ r2 := by
        rw [← heq.2]; exact List.mem_append.mpr (Or.inr (by simp))
      exact h2 124 this rfl
    | cons b l2 =>
      simp only [List.cons_append, List.cons.injEq] at heq
      obtain ⟨h12, h22⟩ := ih l2 r1 r2 heq.2 h1 h2
      exact ⟨by rw [heq.1, h12], h22⟩

theorem sign_injective {key d1 d2 : Bytes} {n1 n2 : Nat}
    (h : sign key d1 n1 = sign key d2 n2) : d1 = d2 ∧ n1 = n2 := by
  unfold sign at h
  have h2 := List.append_cancel_left h
  have h3 : d1 ++ 124 :: natDigits n1 = d2 ++ 124 :: natDigits n2 := by
    simpa using h2
  have hd1 : ∀ b ∈ natDigits n1, b ≠ 124 := by
    intro b hb; have := natDigits_digits n1 b hb; omega
  have hd2 : ∀ b ∈ natDigits n2, b ≠ 124 := by
    intro b hb; have := natDigits_digits n2 b hb; omega
  obtain ⟨hd, hn⟩ := append_sep_inj d1 d2 _ _ h3 hd1 hd2
  exact ⟨hd, natDigits_injective hn⟩

theorem verify_sign (key d : Bytes) (n : Nat) : verify key (sign key d n) d n = true := by
  simp [verify]

/-! ## Bit mutations -/

/-- Flip bit `b` of a number. -/
def flipBit (b x : Nat) : Nat := x ^^^ (2 ^ b)

/-- Flip bit `b` of the byte at position `i` of a byte string. -/
def flipByteAt (i b : Nat) (l : Bytes) : Bytes := l.set i (flipBit b (l.getD i 0))

theorem flipBit_ne (b x : Nat) : flipBit b x ≠ x := by
  unfold flipBit
  intro h
  have h2 : x ^^^ (x ^^^ 2 ^ b) = x ^^^ x := by rw [h]
  rw [← Nat.xor_assoc, Nat.xor_self, Nat.zero_xor] at h2
  have := Nat.two_pow_pos b
  omega

theorem flipByteAt_ne {i : Nat} (b : Nat) {l : Bytes} (hi : i < l.length) :
    flipByteAt i b l ≠ l := by
  intro h
  unfold flipByteAt at h
  have hlen : i < (l.set i (flipBit b (l.getD i 0))).length := by simpa using hi
  have h2 : (l.set i (flipBit b (l.getD i 0)))[i]? = some (flipBit b (l.getD i 0)) := by
    rw [List.getElem?_eq_getElem hlen, List.getElem_set_self]
  rw [h, List.getElem?_eq_getElem hi, Option.some_inj] at h2
  rw [List.getD_eq_getElem l 0 hi] at h2
  exact flipBit_ne b _ h2.symm

/-- C1: for every puzzle date and hint count, `verify` accepts the tag
produced by `sign` over the same `(date, n)`, and flipping any single bit of
the signature, of the date, or of `n` makes `verify` return false (a mutated
or malformed signature is simply a byte string different from the recomputed
tag, which `verify` rejects). -/
theorem sign_verify_roundtrip_and_mutations (key d : Bytes) (n i b j c e : Nat)
    (hi : i < (sign key d n).length) (hj : j < d.length) :
    verify key (sign key d n) d n = true ∧
    verify key (flipByteAt i b (sign key d n)) d n = false ∧
    verify key (sign key d n) (flipByteAt j c d) n = false ∧
    verify key (sign key d n) d (flipBit e n) = false := by
  refine ⟨verify_sign key d n, ?_, ?_, ?_⟩
  · simp only [verify, beq_eq_false_iff_ne, ne_eq]
    exact flipByteAt_ne b hi
  · simp only [verify, beq_eq_false_iff_ne, ne_eq]
    intro heq
    exact flipByteAt_ne c hj (sign_injective heq).1.symm
  · simp only [verify, beq_eq_false_iff_ne, ne_eq]
    intro heq
    exact flipBit_ne e n (sign_injective heq).2.symm

/-- Concrete instantiation of `sign_verify_roundtrip_and_mutations`. -/
theorem sign_verify_roundtrip_and_mutations_witness :
    0 < (sign [7] [50, 48] 3).length ∧ 0 < ([50, 48] : Bytes).length ∧
    (verify [7] (sign [7] [50, 48] 3) [50, 48] 3 = true ∧
     verify [7] (flipByteAt 0 2 (sign [7] [50, 48] 3)) [50, 48] 3 = false ∧
     verify [7] (sign [7] [50, 48] 3) (flipByteAt 0 1 [50, 48]) 3 = false ∧
     verify [7] (sign [7] [50, 48] 3) [50, 48] (flipBit 4 3) = false) :=
  ⟨by decide, by decide,
   sign_verify_roundtrip_and_mutations [7] [50, 48] 3 0 2 0 1 4
     (by decide) (by decide)⟩

/-! ## Fuzzy matcher -/

/-- Split a character list into whitespace-separated words (accumulator holds
the current word reversed). -/
def wordsAux : List Char → List Char → List (List Char)
  | [], acc => if acc.isEmpty then [] else [acc.reverse]
  | c :: rest, acc =>
    if c = ' ' then
      if acc.isEmpty then wordsAux rest [] else acc.reverse :: wordsAux rest []
    else wordsAux rest (c :: acc)

/-- Modelled from the spec: the backend normalisation rule (§4.2) is absent
from `src/`.  Case-fold, drop periods and commas, treat hyphens as
separators, trim and collapse internal whitespace. -/
def normalize (s : String) : String :=
  String.mk (List.intercalate [' ']
    (wordsAux ((s.data.map Char.toLower).filterMap (fun c =>
      if c = '.' ∨ c = ',' then none else if c = '-' then some ' ' else some c)) []))

/-- Fuel-indexed Levenshtein distance (fuel keeps the recursion structural so
terms reduce in the kernel); `levenshtein` supplies sufficient fuel. -/
def levAux : Nat → List Char → List Char → Nat
  | 0, xs, ys => xs.length + ys.length
  | _ + 1, [], ys => ys.length
  | _ + 1, xs, [] => xs.length
  | f + 1, x :: xs, y :: ys =>
    if x = y then levAux f xs ys
    else 1 + min (levAux f xs (y :: ys)) (min (levAux f (x :: xs) ys) (levAux f xs ys))

/-- Modelled from the spec: edit distance between two normalised strings. -/
def levenshtein (xs ys : List Char) : Nat := levAux (xs.length + ys.length + 1) xs ys

/-- Modelled from the spec: typo-tolerance threshold scaling with candidate
length — one edit per 6 characters, floor 1, capped at 3. -/
def threshold (len : Nat) : Nat := min 3 (max 1 (len / 6))

/-- The per-day puzzle record (data model §3; public fields only — the
validation never uses `source_urls` or the image). -/
structure Puzzle where
  answer : String
  aliases : List String
  hints : List String
  deriving Repr, DecidableEq

/-- Modelled from the spec: the backend fuzzy matcher (§4.2) is absent from
`src/`.  A guess is correct when its normalisation equals, or is within the
edit-distance threshold of, the normalised answer or any normalised alias. -/
def fuzzyMatch (guess : String) (p : Puzzle) : Bool :=
  (p.answer :: p.aliases).any (fun cand =>
    normalize guess == normalize cand ||
    Nat.ble (levenshtein (normalize guess).data (normalize cand).data)
      (threshold (normalize cand).data.length))

/-! ## Session and guess protocol -/

inductive GameResult
  | won
  | lost
  deriving Repr, DecidableEq

/-- Per-visitor, per-day session state (data model §3). -/
structure Session where
  can_play : Bool
  has_played : Bool
  result : Option GameResult
  attempts : Nat
  hints_revealed : Nat
  completed_at : Option Nat
  deriving Repr, DecidableEq

/-- A newly issued session (§4.5 `getStatus` for a fresh visitor). -/
def freshSession : Session :=
  { can_play := true, has_played := false, result := none,
    attempts := 0, hints_revealed := 0, completed_at := none }

/-- Guess request body (`GuessIn` in `apps/web/src/lib/api.ts`). -/
structure GuessIn where
  guess : String
  revealed : Nat
  signature : Bytes
  puzzle_date : Bytes
  hints_count : Nat
  deriving Repr, DecidableEq

/-- Guess response (`GuessOut` in `apps/web/src/lib/api.ts`). -/
structure GuessOut where
  correct : Bool
  reveal_next_hint : Bool
  next_hint : Option String
  normalized_answer : Option String
  deriving Repr, DecidableEq

/-- Failure taxonomy of the guess endpoint (spec §4.4 steps 1–4, §7). -/
inductive GuessError
  | integrity
  | notFound
  | hintsMismatch
  | notEligible
  deriving Repr, DecidableEq

/-- Server state relevant to one puzzle day: the signing key, the stored
puzzle keyed by its date, and the caller's session row. -/
structure ServerState where
  key : Bytes
  puzzle_date : Bytes
  puzzle : Puzzle
  session : Session
  deriving Repr, DecidableEq

/-- Modelled from the spec: the `POST /guess` endpoint (§4.4) is absent from
`src/`.  Steps in order: verify the signature, look the puzzle up by date,
check the request's `hints_count` against the stored puzzle, check
eligibility, run the matcher, then decide the outcome (step 6): correct ⇒
won; incorrect with `claimed_reveal_count < hints_count` ⇒ reveal the hint at
index `claimed_reveal_count` and increment the revealed count; otherwise ⇒
exhausted, session lost.  Every outcome branch adds 1 to `attempts` (step 7). -/
def processGuess (st : ServerState) (req : GuessIn) (now : Nat) :
    ServerState × Except GuessError GuessOut :=
  if ¬ verify st.key req.signature req.puzzle_date req.hints_count then
    (st, .error .integrity)
  else if req.puzzle_date ≠ st.puzzle_date then
    (st, .error .notFound)
  else if req.hints_count ≠ st.puzzle.hints.length then
    (st, .error .hintsMismatch)
  else if ¬ st.session.can_play then
    (st, .error .notEligible)
  else if fuzzyMatch req.guess st.puzzle then
    ({st with session := { st.session with
        has_played := true
        attempts := st.session.attempts + 1
        result := some .won
        can_play := false
        completed_at := some now }},
     .ok { correct := true
           reveal_next_hint := false
           next_hint := none
           normalized_answer := some st.puzzle.answer })
  else if req.revealed < st.puzzle.hints.length then
    ({st with session := { st.session with
        has_played := true
        attempts := st.session.attempts + 1
        hints_revealed := req.revealed + 1 }},
     .ok { correct := false
           reveal_next_hint := true
           next_hint := st.puzzle.hints[req.revealed]?
           normalized_answer := none })
  else
    ({st with session := { st.session with
        has_played := true
        attempts := st.session.attempts + 1
        result := some .lost
        can_play := false
        completed_at := some now }},
     .ok { correct := false
           reveal_next_hint := false
           next_hint := none
           normalized_answer := some st.puzzle.answer })

/-- Modelled from the spec: `POST /session/update-progress` (§4.5) is absent
from `src/`.  Accepts only monotonic increases of both counters; a decrease is
rejected (the stored session is returned unchanged, flagged `false`). -/
def updateProgress (s : Session) (attempts hints_revealed : Nat) : Session × Bool :=
  if s.attempts ≤ attempts ∧ s.hints_revealed ≤ hints_revealed then
    ({ s with attempts := attempts, hints_revealed := hints_revealed }, true)
  else (s, false)

/-- Modelled from the spec: `POST /session/complete` (§4.5) is absent from
`src/`.  First completion sets the result, `can_play := false` and
`completed_at`; a repeat call with the same result is a no-op success; a call
with a different result is rejected and leaves the session unchanged. -/
def complete (s : Session) (result : GameResult) (attempts hints_revealed now : Nat) :
    Session × Except String Unit :=
  match s.result with
  | none =>
    ({ s with
        result := some result
        can_play := false
        has_played := true
        attempts := attempts
        hints_revealed := hints_revealed
        completed_at := some now }, .ok ())
  | some r => if result = r then (s, .ok ()) else (s, .error "session already completed")

/-! ## Client (embedded from the web app source) -/

/-- Local state of the game page: the revealed-hint list and its counter
(`page.tsx` lines 15–16 / the session-aware page lines 21–22). -/
structure ClientState where
  hints : List String
  revealedCount : Nat
  deriving Repr, DecidableEq

/-- Fresh page load (`page.tsx`: `setHints([]); setRevealedCount(0)`). -/
def initClient : ClientState := { hints := [], revealedCount := 0 }

/-- JS truthiness of `r.next_hint` in `if (r.reveal_next_hint && r.next_hint)`:
`null` and the empty string are falsy. -/
def hintTruthy : Option String → Bool
  | none => false
  | some h => !(h == "")

/-- Embedded from `page.tsx` `onSubmit` (lines 52–56): when the backend says
to reveal a hint, append it and bump the local count; otherwise leave the
local state alone. -/
def onGuessResult (c : ClientState) (r : GuessOut) : ClientState :=
  if r.reveal_next_hint && hintTruthy r.next_hint then
    { hints := c.hints ++ [(r.next_hint).getD ""]
      revealedCount := c.revealedCount + 1 }
  else c

/-- Embedded from the session-aware page's `handleGuessSubmit` (lines
106–125): on a correct answer nothing is appended; otherwise the `else if`
branch behaves as `onGuessResult`. -/
def clientUpdate (c : ClientState) (r : GuessOut) : ClientState :=
  if r.correct then c else onGuessResult c r

/-- What `GET /puzzle/today` returns to the client (`PublicPuzzle` in
`apps/web/src/lib/api.ts`). -/
structure PublicPuzzle where
  puzzle_date : Bytes
  hints_count : Nat
  signature : Bytes
  deriving Repr, DecidableEq

/-- Modelled from the spec: the server's `GET /puzzle/today` (§6) signs the
public subset (date, hint count) of the stored puzzle. -/
def publishPuzzle (st : ServerState) : PublicPuzzle :=
  { puzzle_date := st.puzzle_date
    hints_count := st.puzzle.hints.length
    signature := sign st.key st.puzzle_date st.puzzle.hints.length }

/-- Embedded from `handleGuessSubmit` (lines 94–100): the request carries the
guess, the locally tracked reveal count, and the puzzle's signature, date and
hint count as fetched. -/
def clientReq (pub : PublicPuzzle) (c : ClientState) (guess : String) : GuessIn :=
  { guess := guess
    revealed := c.revealedCount
    signature := pub.signature
    puzzle_date := pub.puzzle_date
    hints_count := pub.hints_count }

/-- One submission round of `handleGuessSubmit` followed by the server's
processing, threading both the server state and the page's local state. -/
def runGuesses (pub : PublicPuzzle) (now : Nat) :
    List String → ServerState → ClientState →
    List (Except GuessError GuessOut) × ServerState × ClientState
  | [], st, c => ([], st, c)
  | g :: gs, st, c =>
    let step := processGuess st (clientReq pub c g) now
    let c2 := match step.2 with
      | .ok r => clientUpdate c r
      | .error _ => c
    let rest := runGuesses pub now gs step.1 c2
    (step.2 :: rest.1, rest.2)

/-! ## Guess-outcome theorems -/

/-- C3: a guess request that passes the signature, puzzle, hint-count and
eligibility checks and whose guess matches the answer or an alias under the
fuzzy matcher gets the response
`{correct: true, reveal_next_hint: false, next_hint: null, normalized_answer: answer}`
and the session result becomes `won`; `attempts` grows by exactly one and
`hints_revealed` is untouched, so a correct first guess leaves the session
with `attempts = 1` and `hints_revealed = 0`. -/
theorem guess_correct_outcome (st : ServerState) (req : GuessIn) (now : Nat)
    (hsig : verify st.key req.signature req.puzzle_date req.hints_count = true)
    (hdate : req.puzzle_date = st.puzzle_date)
    (hhc : req.hints_count = st.puzzle.hints.length)
    (helig : st.session.can_play = true)
    (hm : fuzzyMatch req.guess st.puzzle = true) :
    (processGuess st req now).2 = .ok
      { correct := true
        reveal_next_hint := false
        next_hint := none
        normalized_answer := some st.puzzle.answer } ∧
    (processGuess st req now).1.session.result = some .won ∧
    (processGuess st req now).1.session.attempts = st.session.attempts + 1 ∧
    (processGuess st req now).1.session.hints_revealed = st.session.hints_revealed := by
  have hsig2 : verify st.key req.signature st.puzzle_date st.puzzle.hints.length = true := by
    rw [← hdate, ← hhc]; exact hsig
  simp [processGuess, hsig2, hdate, hhc, helig, hm]

/-- Shared fixture: a five-hint puzzle. -/
def wPuzzle : Puzzle :=
  { answer := "Ada Lovelace"
    aliases := ["ada"]
    hints := ["h1", "h2", "h3", "h4", "h5"] }

/-- Shared fixture: a puzzle date as bytes. -/
def wDate : Bytes := [50, 48, 50, 53]

/-- Shared fixture: server state holding `wPuzzle` and a fresh session. -/
def wState : ServerState :=
  { key := [9, 9], puzzle_date := wDate, puzzle := wPuzzle, session := freshSession }

/-- Shared fixture: a well-formed request against `wState`. -/
def wReq (g : String) (k : Nat) : GuessIn :=
  { guess := g
    revealed := k
    signature := sign [9, 9] wDate 5
    puzzle_date := wDate
    hints_count := 5 }

/-- Concrete instantiation of `guess_correct_outcome`: a correct first guess. -/
theorem guess_correct_outcome_witness :
    (verify wState.key (wReq "ada lovelace" 0).signature (wReq "ada lovelace" 0).puzzle_date
        (wReq "ada lovelace" 0).hints_count = true ∧
     (wReq "ada lovelace" 0).puzzle_date = wState.puzzle_date ∧
     (wReq "ada lovelace" 0).hints_count = wState.puzzle.hints.length ∧
     wState.session.can_play = true ∧
     fuzzyMatch (wReq "ada lovelace" 0).guess wState.puzzle = true) ∧
    ((processGuess wState (wReq "ada lovelace" 0) 0).2 = .ok
      { correct := true
        reveal_next_hint := false
        next_hint := none
        normalized_answer := some wState.puzzle.answer } ∧
     (processGuess wState (wReq "ada lovelace" 0) 0).1.session.result = some .won ∧
     (processGuess wState (wReq "ada lovelace" 0) 0).1.session.attempts =
       wState.session.attempts + 1 ∧
     (processGuess wState (wReq "ada lovelace" 0) 0).1.session.hints_revealed =
       wState.session.hints_revealed) :=
  ⟨⟨by decide, by decide, by decide, by decide, by decide⟩,
   guess_correct_outcome wState (wReq "ada lovelace" 0) 0
     (by decide) (by decide) (by decide) (by decide) (by decide)⟩

/-- C2: a guess request that passes the signature, puzzle, hint-count and
eligibility checks, whose guess is incorrect and whose claimed reveal count
is at least the puzzle's hint count, gets exactly the exhausted response
`{correct: false, reveal_next_hint: false, next_hint: null, normalized_answer: answer}`
and the session result becomes `lost`. -/
theorem guess_exhausted_outcome (st : ServerState) (req : GuessIn) (now : Nat)
    (hsig : verify st.key req.signature req.puzzle_date req.hints_count = true)
    (hdate : req.puzzle_date = st.puzzle_date)
    (hhc : req.hints_count = st.puzzle.hints.length)
    (helig : st.session.can_play = true)
    (hm : fuzzyMatch req.guess st.puzzle = false)
    (hge : st.puzzle.hints.length ≤ req.revealed) :
    (processGuess st req now).2 = .ok
      { correct := false
        reveal_next_hint := false
        next_hint := none
        normalized_answer := some st.puzzle.answer } ∧
    (processGuess st req now).1.session.result = some .lost := by
  have hsig2 : verify st.key req.signature st.puzzle_date st.puzzle.hints.length = true := by
    rw [← hdate, ← hhc]; exact hsig
  have hnl : ¬ req.revealed < st.puzzle.hints.length := by omega
  simp [processGuess, hsig2, hdate, hhc, helig, hm, hnl]

/-- Concrete instantiation of `guess_exhausted_outcome`: a wrong guess with
all five hints already revealed. -/
theorem guess_exhausted_outcome_witness :
    (verify wState.key (wReq "zzz" 5).signature (wReq "zzz" 5).puzzle_date
        (wReq "zzz" 5).hints_count = true ∧
     (wReq "zzz" 5).puzzle_date = wState.puzzle_date ∧
     (wReq "zzz" 5).hints_count = wState.puzzle.hints.length ∧
     wState.session.can_play = true ∧
     fuzzyMatch (wReq "zzz" 5).guess wState.puzzle = false ∧
     wState.puzzle.hints.length ≤ (wReq "zzz" 5).revealed) ∧
    ((processGuess wState (wReq "zzz" 5) 0).2 = .ok
      { correct := false
        reveal_next_hint := false
        next_hint := none
        normalized_answer := some wState.puzzle.answer } ∧
     (processGuess wState (wReq "zzz" 5) 0).1.session.result = some .lost) :=
  ⟨⟨by decide, by decide, by decide, by decide, by decide, by decide⟩,
   guess_exhausted_outcome wState (wReq "zzz" 5) 0
     (by decide) (by decide) (by decide) (by decide) (by decide) (by decide)⟩

/-- C5: a guess request that passes all checks, whose guess is incorrect and
whose claimed reveal count is below the puzzle's hint count, gets a response
revealing exactly the hint at index `claimed_reveal_count` of the puzzle's
ordered hint list; the stored revealed count becomes `claimed_reveal_count + 1`
and the session remains open (result unchanged, still eligible). -/
theorem guess_reveal_outcome (st : ServerState) (req : GuessIn) (now : Nat)
    (hsig : verify st.key req.signature req.puzzle_date req.hints_count = true)
    (hdate : req.puzzle_date = st.puzzle_date)
    (hhc : req.hints_count = st.puzzle.hints.length)
    (helig : st.session.can_play = true)
    (hm : fuzzyMatch req.guess st.puzzle = false)
    (hlt : req.revealed < st.puzzle.hints.length) :
    (processGuess st req now).2 = .ok
      { correct := false
        reveal_next_hint := true
        next_hint := some (st.puzzle.hints.get ⟨req.revealed, hlt⟩)
        normalized_answer := none } ∧
    (processGuess st req now).1.session.hints_revealed = req.revealed + 1 ∧
    (processGuess st req now).1.session.result = st.session.result ∧
    (processGuess st req now).1.session.can_play = true := by
  have hsig2 : verify st.key req.signature st.puzzle_date st.puzzle.hints.length = true := by
    rw [← hdate, ← hhc]; exact hsig
  simp [processGuess, hsig2, hdate, hhc, helig, hm, hlt,
    List.getElem?_eq_getElem hlt, List.get_eq_getElem]

/-- Concrete instantiation of `guess_reveal_outcome`: a wrong guess with two
hints already revealed gets the third hint. -/
theorem guess_reveal_outcome_witness :
    (verify wState.key (wReq "zzz" 2).signature (wReq "zzz" 2).puzzle_date
        (wReq "zzz" 2).hints_count = true ∧
     (wReq "zzz" 2).puzzle_date = wState.puzzle_date ∧
     (wReq "zzz" 2).hints_count = wState.puzzle.hints.length ∧
     wState.session.can_play = true ∧
     fuzzyMatch (wReq "zzz" 2).guess wState.puzzle = false ∧
     (wReq "zzz" 2).revealed < wState.puzzle.hints.length) ∧
    ((processGuess wState (wReq "zzz" 2) 0).2 = .ok
      { correct := false
        reveal_next_hint := true
        next_hint := some "h3"
        normalized_answer := none } ∧
     (processGuess wState (wReq "zzz" 2) 0).1.session.hints_revealed = 3 ∧
     (processGuess wState (wReq "zzz" 2) 0).1.session.result = wState.session.result ∧
     (processGuess wState (wReq "zzz" 2) 0).1.session.can_play = true) := by
  have h := guess_reveal_outcome wState (wReq "zzz" 2) 0
    (by decide) (by decide) (by decide) (by decide) (by decide) (by decide)
  exact ⟨⟨by decide, by decide, by decide, by decide, by decide, by decide⟩,
    h.1, h.2.1, h.2.2.1, h.2.2.2⟩

/-- C6: every guess submission that reaches the outcome decision (all four
checks pass) increments the session's `attempts` counter by exactly one,
whichever of the three outcome branches is taken. -/
theorem guess_increments_attempts (st : ServerState) (req : GuessIn) (now : Nat)
    (hsig : verify st.key req.signature req.puzzle_date req.hints_count = true)
    (hdate : req.puzzle_date = st.puzzle_date)
    (hhc : req.hints_count = st.puzzle.hints.length)
    (helig : st.session.can_play = true) :
    (processGuess st req now).1.session.attempts = st.session.attempts + 1 := by
  have hsig2 : verify st.key req.signature st.puzzle_date st.puzzle.hints.length = true := by
    rw [← hdate, ← hhc]; exact hsig
  by_cases hm : fuzzyMatch req.guess st.puzzle
  · simp [processGuess, hsig2, hdate, hhc, helig, hm]
  · by_cases hlt : req.revealed < st.puzzle.hints.length
    · simp [processGuess, hsig2, hdate, hhc, helig, hm, hlt]
    · simp [processGuess, hsig2, hdate, hhc, helig, hm, hlt]

/-- Concrete instantiation of `guess_increments_attempts`. -/
theorem guess_increments_attempts_witness :
    (verify wState.key (wReq "zzz" 0).signature (wReq "zzz" 0).puzzle_date
        (wReq "zzz" 0).hints_count = true ∧
     (wReq "zzz" 0).puzzle_date = wState.puzzle_date ∧
     (wReq "zzz" 0).hints_count = wState.puzzle.hints.length ∧
     wState.session.can_play = true) ∧
    (processGuess wState (wReq "zzz" 0) 0).1.session.attempts =
      wState.session.attempts + 1 :=
  ⟨⟨by decide, by decide, by decide, by decide⟩,
   guess_increments_attempts wState (wReq "zzz" 0) 0
     (by decide) (by decide) (by decide) (by decide)⟩

/-! ## Session-tracker theorems -/

theorem updateProgress_step_le (s : Session) (a h : Nat) :
    s.attempts ≤ (updateProgress s a h).1.attempts ∧
    s.hints_revealed ≤ (updateProgress s a h).1.hints_revealed := by
  unfold updateProgress
  split
  · next hc => exact ⟨hc.1, hc.2⟩
  · exact ⟨Nat.le_refl _, Nat.le_refl _⟩

/-- C7: `updateProgress` accepts only monotonic increases — a call carrying
values lower than the stored ones leaves the stored counters unchanged, so
neither counter ever decreases, and over any sequence of update calls the
stored `hints_revealed` (what `/session/status` reports) is non-decreasing. -/
theorem updateProgress_monotone (s : Session) (a h : Nat) (us : List (Nat × Nat)) :
    s.attempts ≤ (updateProgress s a h).1.attempts ∧
    s.hints_revealed ≤ (updateProgress s a h).1.hints_revealed ∧
    s.hints_revealed ≤
      (us.foldl (fun st u => (updateProgress st u.1 u.2).1) s).hints_revealed := by
  refine ⟨(updateProgress_step_le s a h).1, (updateProgress_step_le s a h).2, ?_⟩
  induction us generalizing s with
  | nil => exact Nat.le_refl _
  | cons u us ih =>
    exact Nat.le_trans (updateProgress_step_le s u.1 u.2).2
      (ih ((updateProgress s u.1 u.2).1))

/-- C8: completing an already-completed session again with the same result is
a no-op success returning the stored session unchanged, while completing it
with a different result is rejected, also leaving the stored session (its
result, `can_play` and `completed_at`) unchanged. -/
theorem complete_second_call_semantics (s : Session) (r r2 : GameResult)
    (a h a2 h2 now now2 : Nat) (hc : s.result = some r) :
    complete s r a h now = (s, .ok ()) ∧
    (r2 ≠ r → complete s r2 a2 h2 now2 = (s, .error "session already completed")) := by
  unfold complete
  rw [hc]
  exact ⟨by simp, fun hne => by simp [hne]⟩

/-- Shared fixture: a session completed as won. -/
def wDone : Session :=
  { can_play := false, has_played := true, result := some .won,
    attempts := 3, hints_revealed := 2, completed_at := some 5 }

/-- Concrete instantiation of `complete_second_call_semantics`. -/
theorem complete_idempotent_witness :
    wDone.result = some GameResult.won ∧
    (complete wDone .won 3 2 9 = (wDone, .ok ()) ∧
     (GameResult.lost ≠ GameResult.won →
       complete wDone .lost 4 2 9 = (wDone, .error "session already completed"))) :=
  ⟨rfl, complete_second_call_semantics wDone .won .lost 3 2 4 2 9 9 rfl⟩

/-! ## Client-state invariant -/

theorem onGuessResult_preserves (c : ClientState) (r : GuessOut)
    (hcr : c.hints.length = c.revealedCount) :
    (onGuessResult c r).hints.length = (onGuessResult c r).revealedCount := by
  unfold onGuessResult
  split
  · simp [hcr]
  · exact hcr

/-- C9: in the game page's local state, the revealed-hint list and the
`revealedCount` counter start at `([], 0)` on load and are updated together by
every guess response, so `hints.length = revealedCount` holds after any
sequence of responses. -/
theorem client_hints_length_eq_revealedCount (rs : List GuessOut) :
    (rs.foldl onGuessResult initClient).hints.length =
    (rs.foldl onGuessResult initClient).revealedCount := by
  have gen : ∀ (rs2 : List GuessOut) (c : ClientState),
      c.hints.length = c.revealedCount →
      (rs2.foldl onGuessResult c).hints.length =
        (rs2.foldl onGuessResult c).revealedCount := by
    intro rs2
    induction rs2 with
    | nil => intro c hcr; exact hcr
    | cons r rs2 ih =>
      intro c hcr
      exact ih (onGuessResult c r) (onGuessResult_preserves c r hcr)
  exact gen rs initClient rfl

/-! ## Full-game runs -/

deriving instance DecidableEq for Except

/-- C4 counterexample: on the five-hint fixture puzzle, five consecutive
incorrect guesses from a fresh session produce five hint reveals — the fifth
response reveals the fifth hint rather than being the terminal exhausted
response, and the session is still open (result unset, still eligible),
contrary to the claim that the fifth response is terminal. -/
theorem five_wrong_guesses_all_reveal :
    (runGuesses (publishPuzzle wState) 0 ["zzz", "zzz", "zzz", "zzz", "zzz"]
        wState initClient).1[4]? =
      some (.ok { correct := false
                  reveal_next_hint := true
                  next_hint := some "h5"
                  normalized_answer := none }) ∧
    (runGuesses (publishPuzzle wState) 0 ["zzz", "zzz", "zzz", "zzz", "zzz"]
        wState initClient).2.1.session.result ≠ some GameResult.lost ∧
    (runGuesses (publishPuzzle wState) 0 ["zzz", "zzz", "zzz", "zzz", "zzz"]
        wState initClient).2.1.session.can_play = true := by
  refine ⟨by decide, by decide, by decide⟩

/-- C4 amended: starting from a fresh session on a puzzle with exactly five
non-empty hints, six consecutive incorrect guesses yield, in order, five
hint-reveal responses (hints 1..5) followed by a terminal exhausted response
whose `normalized_answer` is the puzzle's answer, after which the session's
result is `lost` and `can_play` is false. -/
theorem six_wrong_guesses_reveal_then_exhaust (key pdate : Bytes) (p : Puzzle)
    (g1 g2 g3 g4 g5 g6 : String) (now : Nat)
    (h5 : p.hints.length = 5)
    (hne : ∀ hh ∈ p.hints, hh ≠ "")
    (hw1 : fuzzyMatch g1 p = false) (hw2 : fuzzyMatch g2 p = false)
    (hw3 : fuzzyMatch g3 p = false) (hw4 : fuzzyMatch g4 p = false)
    (hw5 : fuzzyMatch g5 p = false) (hw6 : fuzzyMatch g6 p = false) :
    (runGuesses (publishPuzzle ⟨key, pdate, p, freshSession⟩) now
        [g1, g2, g3, g4, g5, g6] ⟨key, pdate, p, freshSession⟩ initClient).1 =
      [.ok { correct := false, reveal_next_hint := true,
             next_hint := p.hints[0]?, normalized_answer := none },
       .ok { correct := false, reveal_next_hint := true,
             next_hint := p.hints[1]?, normalized_answer := none },
       .ok { correct := false, reveal_next_hint := true,
             next_hint := p.hints[2]?, normalized_answer := none },
       .ok { correct := false, reveal_next_hint := true,
             next_hint := p.hints[3]?, normalized_answer := none },
       .ok { correct := false, reveal_next_hint := true,
             next_hint := p.hints[4]?, normalized_answer := none },
       .ok { correct := false, reveal_next_hint := false,
             next_hint := none, normalized_answer := some p.answer }] ∧
    (runGuesses (publishPuzzle ⟨key, pdate, p, freshSession⟩) now
        [g1, g2, g3, g4, g5, g6] ⟨key, pdate, p, freshSession⟩ initClient).2.1.session.result =
      some GameResult.lost ∧
    (runGuesses (publishPuzzle ⟨key, pdate, p, freshSession⟩) now
        [g1, g2, g3, g4, g5, g6] ⟨key, pdate, p, freshSession⟩ initClient).2.1.session.can_play =
      false := by
  rcases p with ⟨ans, als, hnts⟩
  rcases hnts with _ | ⟨a0, t0⟩
  · simp at h5
  rcases t0 with _ | ⟨a1, t1⟩
  · simp at h5
  rcases t1 with _ | ⟨a2, t2⟩
  · simp at h5
  rcases t2 with _ | ⟨a3, t3⟩
  · simp at h5
  rcases t3 with _ | ⟨a4, t4⟩
  · simp at h5
  rcases t4 with _ | ⟨a5, t5⟩
  swap
  · simp at h5
  have ha0 : (a0 == "") = false := beq_eq_false_iff_ne.mpr (hne a0 (by simp))
  have ha1 : (a1 == "") = false := beq_eq_false_iff_ne.mpr (hne a1 (by simp))
  have ha2 : (a2 == "") = false := beq_eq_false_iff_ne.mpr (hne a2 (by simp))
  have ha3 : (a3 == "") = false := beq_eq_false_iff_ne.mpr (hne a3 (by simp))
  have ha4 : (a4 == "") = false := beq_eq_false_iff_ne.mpr (hne a4 (by simp))
  simp [runGuesses, clientReq, processGuess, publishPuzzle, clientUpdate,
    onGuessResult, hintTruthy, verify_sign, freshSession, initClient,
    hw1, hw2, hw3, hw4, hw5, hw6, ha0, ha1, ha2, ha3, ha4]

/-- Concrete instantiation of `six_wrong_guesses_reveal_then_exhaust`. -/
theorem six_wrong_guesses_witness :
    (wPuzzle.hints.length = 5 ∧ (∀ hh ∈ wPuzzle.hints, hh ≠ "") ∧
     fuzzyMatch "zzz" wPuzzle = false) ∧
    (runGuesses (publishPuzzle ⟨[9, 9], wDate, wPuzzle, freshSession⟩) 0
        ["zzz", "zzz", "zzz", "zzz", "zzz", "zzz"]
        ⟨[9, 9], wDate, wPuzzle, freshSession⟩ initClient).2.1.session.result =
      some GameResult.lost :=
  ⟨⟨by decide, by decide, by decide⟩,
   (six_wrong_guesses_reveal_then_exhaust [9, 9] wDate wPuzzle
     "zzz" "zzz" "zzz" "zzz" "zzz" "zzz" 0 (by decide) (by decide)
     (by decide) (by decide) (by decide) (by decide) (by decide) (by decide)).2.1⟩

/-! ## The client's guess URL (`submitGuess` in `apps/web/src/lib/api.ts`) -/

/-- Bytes a JS `encodeURIComponent` leaves unescaped: ASCII alphanumerics and
`- _ . ! ~ * ' ( )`. -/
def isUnreserved (b : Nat) : Bool :=
  (65 ≤ b && b ≤ 90) || (97 ≤ b && b ≤ 122) || (48 ≤ b && b ≤ 57) ||
  b == 45 || b == 95 || b == 46 || b == 33 || b == 126 || b == 42 ||
  b == 39 || b == 40 || b == 41

/-- Upper-case hexadecimal digit byte for a value below 16. -/
def hexDigit (n : Nat) : Nat := if n < 10 then 48 + n else 55 + n

/-- Value of a hexadecimal digit byte. -/
def hexVal (c : Nat) : Nat :=
  if 48 ≤ c ∧ c ≤ 57 then c - 48
  else if 65 ≤ c ∧ c ≤ 70 then c - 55
  else if 97 ≤ c ∧ c ≤ 102 then c - 87
  else 0

/-- Byte-level model of JS `encodeURIComponent`: unreserved bytes pass
through, every other byte becomes a `%XX` escape. -/
def encodeURIComponent : Bytes → Bytes
  | [] => []
  | b :: bs =>
    (if isUnreserved b then [b] else [37, hexDigit (b / 16), hexDigit (b % 16)]) ++
      encodeURIComponent bs

/-- Percent-decoding, the inverse applied by the server's URL parser. -/
def percentDecode : Bytes → Bytes
  | [] => []
  | b :: rest =>
    if b = 37 then
      match rest with
      | h :: l :: rest2 => (hexVal h * 16 + hexVal l) :: percentDecode rest2
      | [x] => [b, x]
      | [] => [b]
    else b :: percentDecode rest

/-- ASCII bytes of a string literal (code points; the literals involved are
pure ASCII). -/
def strBytes (s : String) : Bytes := s.data.map Char.toNat

/-- Embedded from `api.ts` line 53: the URL template
`/guess?date=<uri-encoded puzzle_date>&hc=<hints_count>` built by
`submitGuess` from the same request body it posts. -/
def submitGuessUrl (b : GuessIn) : Bytes :=
  strBytes "/guess?date=" ++ encodeURIComponent b.puzzle_date ++
    strBytes "&hc=" ++ natDigits b.hints_count

/-- The `date` query parameter: the bytes after `date=` up to the `&`,
percent-decoded. -/
def queryDate (url : Bytes) : Bytes :=
  percentDecode ((url.drop 12).takeWhile (fun x => x != 38))

/-- The `hc` query parameter: the bytes after `&hc=`, parsed as a decimal. -/
def queryHc (url : Bytes) : Nat :=
  parseNat (((url.drop 12).dropWhile (fun x => x != 38)).drop 4)

theorem hexVal_hexDigit {n : Nat} (h : n < 16) : hexVal (hexDigit n) = n := by
  unfold hexVal hexDigit
  split
  · split <;> omega
  · split
    · omega
    · split <;> omega

theorem encode_no_amp (bs : Bytes) : ∀ x ∈ encodeURIComponent bs, x ≠ 38 := by
  induction bs with
  | nil => intro x hx; simp [encodeURIComponent] at hx
  | cons b rest ih =>
    intro x hx
    simp only [encodeURIComponent] at hx
    rcases List.mem_append.mp hx with h | h
    · by_cases hu : isUnreserved b
      · rw [if_pos hu] at h
        simp at h
        subst h
        intro h38
        subst h38
        simp [isUnreserved] at hu
      · rw [if_neg hu] at h
        simp at h
        have h16a : b / 16 < 16 ∨ True := Or.inr trivial
        rcases h with h | h | h
        · omega
        · subst h; unfold hexDigit; split <;> omega
        · subst h; unfold hexDigit; split <;> omega
    · exact ih x h

theorem percentDecode_encode (bs : Bytes) (hb : ∀ x ∈ bs, x < 256) :
    percentDecode (encodeURIComponent bs) = bs := by
  induction bs with
  | nil => simp [encodeURIComponent, percentDecode]
  | cons b rest ih =>
    have hbr : ∀ x ∈ rest, x < 256 := fun x hx => hb x (List.mem_cons_of_mem b hx)
    have hb0 : b < 256 := hb b (List.mem_cons_self b rest)
    by_cases hu : isUnreserved b
    · have hb37 : b ≠ 37 := by
        intro h37; subst h37; simp [isUnreserved] at hu
      simp only [encodeURIComponent, if_pos hu, List.singleton_append]
      unfold percentDecode
      rw [if_neg hb37, ih hbr]
    · have hd : b / 16 < 16 := by omega
      have hm : b % 16 < 16 := by omega
      simp only [encodeURIComponent, if_neg hu, List.cons_append, List.nil_append]
      unfold percentDecode
      simp [ih hbr, hexVal_hexDigit hd, hexVal_hexDigit hm]
      omega

theorem takeWhile_append_sep {p : Nat → Bool} (l r : Bytes) (a : Nat)
    (hl : ∀ x ∈ l, p x = true) (ha : p a = false) :
    ((l ++ a :: r).takeWhile p = l) ∧ ((l ++ a :: r).dropWhile p = a :: r) := by
  induction l with
  | nil => simp [List.takeWhile, List.dropWhile, ha]
  | cons x xs ih =>
    have hx : p x = true := hl x (List.mem_cons_self x xs)
    have hxs : ∀ y ∈ xs, p y = true := fun y hy => hl y (List.mem_cons_of_mem x hy)
    obtain ⟨iht, ihd⟩ := ih hxs
    constructor
    · simp [List.takeWhile, hx, iht]
    · simp [List.dropWhile, hx, ihd]

/-- C10: the URL built by the client's `submitGuess` carries `puzzle_date`
(URI-encoded) as the `date` query parameter and `hints_count` as the `hc`
query parameter, and both always decode back to exactly the corresponding
fields of the JSON request body it posts. -/
theorem submitGuessUrl_params_match_body (b : GuessIn)
    (hbytes : ∀ x ∈ b.puzzle_date, x < 256) :
    queryDate (submitGuessUrl b) = b.puzzle_date ∧
    queryHc (submitGuessUrl b) = b.hints_count := by
  have hsplit : submitGuessUrl b =
      strBytes "/guess?date=" ++ (encodeURIComponent b.puzzle_date ++
        (38 :: (strBytes "hc=" ++ natDigits b.hints_count))) := by
    simp [submitGuessUrl, strBytes]
  have hdrop : (submitGuessUrl b).drop 12 =
      encodeURIComponent b.puzzle_date ++
        (38 :: (strBytes "hc=" ++ natDigits b.hints_count)) := by
    rw [hsplit]
    have h12 : (strBytes "/guess?date=").length = 12 := by decide
    rw [← h12, List.drop_left]
  have hne38 : ∀ x ∈ encodeURIComponent b.puzzle_date, (x != 38) = true := by
    intro x hx
    simpa using encode_no_amp b.puzzle_date x hx
  have h38 : ((38 : Nat) != 38) = false := by decide
  obtain ⟨ht, hd⟩ := takeWhile_append_sep (encodeURIComponent b.puzzle_date)
    (strBytes "hc=" ++ natDigits b.hints_count) 38 hne38 h38
  constructor
  · rw [queryDate, hdrop, ht, percentDecode_encode b.puzzle_date hbytes]
  · rw [queryHc, hdrop, hd]
    have : (38 :: (strBytes "hc=" ++ natDigits b.hints_count)).drop 4 =
        natDigits b.hints_count := by
      simp [strBytes]
    rw [this, parseNat_natDigits]

/-- Concrete instantiation of `submitGuessUrl_params_match_body`. -/
theorem submitGuessUrl_params_witness :
    (∀ x ∈ (wReq "ada" 1).puzzle_date, x < 256) ∧
    (queryDate (submitGuessUrl (wReq "ada" 1)) = (wReq "ada" 1).puzzle_date ∧
     queryHc (submitGuessUrl (wReq "ada" 1)) = (wReq "ada" 1).hints_count) :=
  ⟨by decide, submitGuessUrl_params_match_body (wReq "ada" 1) (by decide)⟩

end Figurdle
